import Mathlib

/-!
# Verification of the data-collector polling and publishing engine

This file shallowly embeds the core of the `timokroeger/data-collector`
repository (files `src/device.rs`, `src/config.rs`, `src/main.rs`,
`src/sensor.rs`) and settles the specification claims about it.

Modelling conventions:

* Rust `u16`/`u32`/`u64` words are `Nat` with explicit `% 2 ^ w`
  wherever the Rust operation can wrap; signed values are `Int`.
* `f64` results of decoding are represented exactly by the inductive
  `FloatVal`: integer-valued conversions (`f64::from` on integers below
  `2 ^ 53` is exact) carry the integer, and IEEE-754 reinterpretations
  (`f32::from_bits` / `f64::from_bits`, which are injective on bit
  patterns) carry the bit pattern.  No floating-point arithmetic is
  interpreted.
* Rust panics (out-of-bounds indexing, integer overflow in debug mode,
  `expect` on `None`) are modelled with `Option`/`Except`.
* `BTreeMap` is modelled as an association list together with an
  insertion function that keeps keys sorted and overwrites duplicates,
  matching `BTreeMap`'s iteration order and `FromIterator`/`append`
  semantics.
-/

namespace DataCollector

/-! ## DataType codec (src/device.rs, `enum DataType`) -/

inductive DataType where
  | u16
  | u32
  | i16
  | i32
  | f32
  | f64
deriving DecidableEq, Repr

/-- Embeds `impl FromStr for DataType` of src/device.rs: the six known tags parse,
everything else is an error. -/
def DataType.fromStr : String → Option DataType
  | "u16" => some .u16
  | "u32" => some .u32
  | "i16" => some .i16
  | "i32" => some .i32
  | "f32" => some .f32
  | "f64" => some .f64
  | _ => none

/-- Embeds `DataType::num_registers` of src/device.rs. -/
def DataType.num_registers : DataType → Nat
  | .u16 | .i16 => 1
  | .u32 | .i32 | .f32 => 2
  | .f64 => 4

/-- Exact representation of the `f64` values produced by
`DataType::parse_data`.  `ofInt n` is `n as f64` (exact for the ranges
that occur here, all below `2 ^ 53` in magnitude); `ofF32Bits p` is
`f64::from(f32::from_bits(p))` and `ofF64Bits p` is `f64::from_bits(p)`
(both injective in `p` up to NaN payloads, which we keep distinct). -/
inductive FloatVal where
  | ofInt (n : Int)
  | ofF32Bits (bits : Nat)
  | ofF64Bits (bits : Nat)
deriving DecidableEq, Repr

/-- Two's-complement reading of a `w`-bit pattern, used for the Rust
casts `as i16` / `as i32`. -/
def toSigned (w : Nat) (p : Nat) : Int :=
  if p < 2 ^ (w - 1) then (p : Int) else (p : Int) - 2 ^ w

/-- Embeds `DataType::parse_data` of src/device.rs.  The input is the word
slice `data : &[u16]` (each element `< 2 ^ 16`); indexing past the end
of the slice panics in Rust and yields `none` here.  Shifts on `u32`
(resp. `i32`, `u64`) discard bits shifted above the type width, hence
the explicit `% 2 ^ 32` / `% 2 ^ 64`; the `i32` arm performs its
shift-and-or on the 32-bit pattern and reinterprets the result as
signed, exactly as two's-complement `<<` and `|` do in Rust. -/
def DataType.parse_data (t : DataType) (data : List Nat) : Option FloatVal :=
  match t with
  | .u16 => do
      let w0 ← data[0]?
      pure (.ofInt (w0 : Nat))
  | .u32 => do
      let w0 ← data[0]?
      let w1 ← data[1]?
      pure (.ofInt ((((w0 <<< 16) % 2 ^ 32) ||| w1 : Nat) : Int))
  | .i16 => do
      let w0 ← data[0]?
      pure (.ofInt (toSigned 16 w0))
  | .i32 => do
      let w0 ← data[0]?
      let w1 ← data[1]?
      pure (.ofInt (toSigned 32 (((w0 <<< 16) % 2 ^ 32) ||| w1)))
  | .f32 => do
      let w0 ← data[0]?
      let w1 ← data[1]?
      pure (.ofF32Bits (((w0 <<< 16) % 2 ^ 32) ||| w1))
  | .f64 => do
      let w0 ← data[0]?
      let w1 ← data[1]?
      let w2 ← data[2]?
      let w3 ← data[3]?
      pure (.ofF64Bits (((w0 <<< 48) % 2 ^ 64) ||| ((w1 <<< 32) % 2 ^ 64) |||
        ((w2 <<< 16) % 2 ^ 64) ||| w3))

/-- The spec's big-endian composition
`word[0] << (16*(w-1)) | … | word[w-1]` of the first `w` words. -/
def composeWords : Nat → List Nat → Nat
  | 0, _ => 0
  | _ + 1, [] => 0
  | w + 1, x :: xs => (x <<< (16 * w)) ||| composeWords w xs

/-- The decoded value the specification describes for each data type:
`u16` is the first word, `u32` the unsigned composition, `i16`/`i32`
the sign-extended signed value of the composed pattern, `f32`/`f64` the
IEEE-754 reinterpretation of the composed pattern. -/
def specDecode (t : DataType) (data : List Nat) : FloatVal :=
  match t with
  | .u16 => .ofInt (data.headD 0)
  | .u32 => .ofInt (composeWords 2 data)
  | .i16 => .ofInt (toSigned 16 (composeWords 1 data))
  | .i32 => .ofInt (toSigned 32 (composeWords 2 data))
  | .f32 => .ofF32Bits (composeWords 2 data)
  | .f64 => .ofF64Bits (composeWords 4 data)

/-! ## Line-protocol encoder (src/device.rs, `fn influxdb_line`) -/

/-- Rust `str::replace` with a single-character pattern: every
occurrence of `c` is replaced by `r`.  For a one-character pattern the
left-to-right non-overlapping replacement is exactly this
character-wise expansion. -/
def replaceChar (c : Char) (r : List Char) : List Char → List Char
  | [] => []
  | a :: s => (if a = c then r else [a]) ++ replaceChar c r s

/-- The closure `escape_meas` in `influxdb_line` (src/device.rs):
`s.replace(',', "\\,").replace(' ', "\\ ")`. -/
def escape_meas (s : List Char) : List Char :=
  replaceChar ' ' ['\\', ' '] (replaceChar ',' ['\\', ','] s)

/-- The closure `escape_tag` in `influxdb_line` (src/device.rs):
`escape_meas(s).replace('=', "\\=")`. -/
def escape_tag (s : List Char) : List Char :=
  replaceChar '=' ['\\', '='] (escape_meas s)

/-- Embeds `fn influxdb_line` of src/device.rs.  The `f64` field value and the
`u128` timestamp enter the line through Rust `Display`; their rendered
text is taken as input here. -/
def influxdb_line (measurement : List Char) (tags : List (List Char × List Char))
    (valueStr : List Char) (timestampStr : List Char) : List Char :=
  escape_meas measurement ++
    (tags.map fun kv => [','] ++ escape_tag kv.1 ++ ['='] ++ escape_tag kv.2).flatten ++
    (' ' :: String.toList "value=") ++ valueStr ++ [' '] ++ timestampStr ++ ['\n']

/-! ### C8: escaping round-trips -/

/-- Character-wise form of the escaping: a trigger character becomes
backslash-then-itself, everything else is untouched. -/
def escapeCW (triggers : List Char) : List Char → List Char
  | [] => []
  | a :: s => (if a ∈ triggers then ['\\', a] else [a]) ++ escapeCW triggers s

/-- The inverse escape rules: a backslash followed by a trigger
character decodes to the bare character; everything else is copied. -/
def unescape (triggers : List Char) : List Char → List Char
  | [] => []
  | [a] => [a]
  | a :: b :: t =>
    if a = '\\' ∧ b ∈ triggers then b :: unescape triggers t
    else a :: unescape triggers (b :: t)

/-- Inverse escape rules for the measurement field (only `,` and a
space are escaped there). -/
def unescape_meas (s : List Char) : List Char :=
  unescape [',', ' '] s

/-- Inverse escape rules for tag keys and values (`,`, space and `=`
are escaped there). -/
def unescape_tag (s : List Char) : List Char :=
  unescape [',', ' ', '='] s

/-! ## Register plan (src/device.rs, `struct Registers` / `struct Request`) -/

/-- Embeds `struct Register` of src/device.rs.  `scaling: f64` is kept
symbolic as its 64-bit pattern: no arithmetic on it is interpreted. -/
structure Register where
  data_type : DataType
  scaling : Nat
  name : String
  tags : List (String × String)
deriving DecidableEq, Repr

/-- Embeds `struct Request` of src/device.rs; the source field `end` is a Lean
keyword and is called `stop` here. -/
structure Request where
  start : Nat
  stop : Nat
deriving DecidableEq, Repr

/-- Embeds `Request::new` of src/device.rs: `end = addr + len` on `u16`
overflows (a debug-build panic) when the sum does not fit in 16 bits,
hence the explicit check. -/
def Request.new (addr len : Nat) : Option Request :=
  if addr + len < 2 ^ 16 then some ⟨addr, addr + len⟩ else none

/-- Embeds `Request::len` of src/device.rs. -/
def Request.len (q : Request) : Nat := q.stop - q.start

/-- Request `q` fully covers the word range `[a, a + w)`. -/
def Request.covers (q : Request) (a w : Nat) : Bool :=
  decide (q.start ≤ a) && decide (a + w ≤ q.stop)

/-- One iteration of the loop body of `Registers::new` in src/device.rs:
if the current register's range starts at or before the end of the
request under construction the request is extended, otherwise a new
request is started.  The accumulator holds the requests
most-recent-first; `Registers.new` reverses it at the end. -/
def pushMerge (reqs : List Request) (curr : Request) : List Request :=
  match reqs with
  | [] => [curr]
  | prev :: rest =>
    if curr.start ≤ prev.stop then
      if prev.stop < curr.stop then ⟨prev.start, curr.stop⟩ :: rest else prev :: rest
    else curr :: prev :: rest

/-- The loop of `Registers::new` over the address-sorted register map. -/
def buildRequests : List (Nat × Register) → List Request → Option (List Request)
  | [], reqs => some reqs
  | (addr, reg) :: rest, reqs =>
    match Request.new addr reg.data_type.num_registers with
    | none => none
    | some curr => buildRequests rest (pushMerge reqs curr)

/-- Embeds `struct Registers` of src/device.rs: the address-keyed register map
together with the computed read requests. -/
structure Registers where
  map : List (Nat × Register)
  requests : List Request
deriving DecidableEq, Repr

/-- Embeds `Registers::new` of src/device.rs.  The input list plays the role
of the `BTreeMap` iterated in ascending address order. -/
def Registers.new (map : List (Nat × Register)) : Option Registers :=
  (buildRequests map []).map fun reqs => ⟨map, reqs.reverse⟩

/-! ## BTreeMap model

`BTreeMap` is represented by its sorted entry list; `btInsert` is one
`insert` (overwriting an existing key), `btCollect` is
`FromIterator` (sequential inserts, later entries win) and `btAppend`
is `BTreeMap::append` (the other map's entries are inserted into
`self`, overriding on key collision). -/

def btInsert {K V : Type} [LinearOrder K] (k : K) (v : V) :
    List (K × V) → List (K × V)
  | [] => [(k, v)]
  | (k1, v1) :: rest =>
    if k < k1 then (k, v) :: (k1, v1) :: rest
    else if k = k1 then (k, v) :: rest
    else (k1, v1) :: btInsert k v rest

def btCollect {K V : Type} [LinearOrder K] (l : List (K × V)) : List (K × V) :=
  l.foldl (fun m kv => btInsert kv.1 kv.2 m) []

def btAppend {K V : Type} [LinearOrder K] (m other : List (K × V)) : List (K × V) :=
  other.foldl (fun m kv => btInsert kv.1 kv.2 m) m

/-- Embeds `BTreeMap::get` on the entry-list representation. -/
def btLookup {K V : Type} [DecidableEq K] (k : K) (m : List (K × V)) : Option V :=
  (m.find? fun p => decide (p.1 = k)).map (·.2)

/-! ## Device (src/device.rs, `struct Device`) -/

/-- Embeds `struct Device` of src/device.rs; `scan_interval: Duration` is kept
as its value in nanoseconds. -/
structure Device where
  id : Nat
  scan_interval : Nat
  tags : List (String × String)
  input_registers : Registers
deriving DecidableEq, Repr

/-- Embeds `Device::new` of src/device.rs: stores the fields and builds the
request plan via `Registers::new` (whose `u16` overflow panic is the
only failure, hence `Option`). -/
def Device.new (id scan_interval : Nat) (tags : List (String × String))
    (input_registers : List (Nat × Register)) : Option Device :=
  (Registers.new input_registers).map fun regs =>
    ⟨id, scan_interval, tags, regs⟩

/-! ## Configuration merging (src/config.rs, `fn device_from_config`) -/

/-- Embeds `enum RegisterConfig` of src/config.rs.  The optional `scaling`
is the 64-bit pattern of the configured `f64`, kept symbolic. -/
inductive RegisterConfig where
  | simple (addr : Nat)
  | advanced (addr : Nat) (name : String) (data_type : Option String)
      (scaling : Option Nat) (tags : List (String × String))
deriving DecidableEq, Repr

/-- Embeds `struct DeviceConfig` of src/config.rs. -/
structure DeviceConfig where
  template : Option String
  id : Option Nat
  scan_interval : Option String
  tags : List (String × String)
  input_registers : List RegisterConfig
deriving DecidableEq, Repr

/-- Embeds the derived `Default` for `DeviceConfig`: all fields empty. -/
def DeviceConfig.default : DeviceConfig := ⟨none, none, none, [], []⟩

/-- The 64-bit pattern of `1.0f64`, the default `scaling`. -/
def one_f64_bits : Nat := 0x3FF0000000000000

/-- Embeds `Option::xor` as used for the `id` and `scan_interval` merge:
`some` exactly when exactly one operand is `some`. -/
def optXor {α : Type} : Option α → Option α → Option α
  | some x, none => some x
  | none, some y => some y
  | _, _ => none

/-- Embeds `templates.get(&name).cloned()` on the template map. -/
def lookupTemplate (templates : List (String × DeviceConfig)) (name : String) :
    Option DeviceConfig :=
  btLookup name templates

/-- The starting scaffold of `device_from_config`:
`config.template.and_then(|name| templates.get(&name).cloned()).unwrap_or_default()`. -/
def mergedScaffold (templates : List (String × DeviceConfig))
    (config : DeviceConfig) : DeviceConfig :=
  (config.template.bind (lookupTemplate templates)).getD DeviceConfig.default

/-- The per-entry register conversion closure in `device_from_config`
(src/config.rs): a bare address becomes a `u16` register named
`input_register_<addr>`; a structured entry parses its `data_type`
(panicking — here `.error` — on an unknown tag) and defaults it to
`u16` and `scaling` to 1.0. -/
def registerFromConfig : RegisterConfig → Except String (Nat × Register)
  | .simple addr =>
      .ok (addr, ⟨.u16, one_f64_bits, "input_register_" ++ toString addr, []⟩)
  | .advanced addr name dt sc tags =>
    match dt with
    | none => .ok (addr, ⟨.u16, sc.getD one_f64_bits, name, tags⟩)
    | some s =>
      match DataType.fromStr s with
      | some t => .ok (addr, ⟨t, sc.getD one_f64_bits, name, tags⟩)
      | none => .error ("`" ++ name ++ "`: Invalid register type `" ++ s ++ "`")

/-- The register-list conversion of `device_from_config`, in iterator
order. -/
def mapRegisters : List RegisterConfig → Except String (List (Nat × Register))
  | [] => .ok []
  | rc :: rest =>
    match registerFromConfig rc with
    | .error e => .error e
    | .ok p =>
      match mapRegisters rest with
      | .error e => .error e
      | .ok ps => .ok (p :: ps)

/-- Embeds `fn device_from_config` of src/config.rs.  `pd` models the external
`humantime::parse_duration` (nanoseconds on success); every `expect` /
`panic!` becomes `.error` with the panic message (for the `u16`
overflow inside `Registers::new`, the standard debug-build message). -/
def device_from_config (pd : String → Option Nat)
    (templates : List (String × DeviceConfig)) (config : DeviceConfig) :
    Except String Device :=
  let c := mergedScaffold templates config
  match optXor c.id config.id with
  | none =>
      .error "Field `id`: Is it missing or defined both in template and device section?"
  | some id =>
    match optXor c.scan_interval config.scan_interval with
    | none =>
        .error "Field `scan_interval`: Is it missing or defined both in template and device section?"
    | some si =>
      match pd si with
      | none => .error ("Invalid `scan_interval` for device with id `" ++ toString id ++ "`")
      | some ns =>
        match mapRegisters (c.input_registers ++ config.input_registers) with
        | .error e => .error e
        | .ok entries =>
          match Device.new id ns (btAppend c.tags config.tags) (btCollect entries) with
          | some d => .ok d
          | none => .error "attempt to add with overflow"

/-! ### C10: a later register entry replaces an earlier one at the same
address -/

/-- The value of the entry occurring *last* in `l` with key `k`. -/
def lastWith {K V : Type} [DecidableEq K] (k : K) (l : List (K × V)) : Option V :=
  (l.reverse.find? fun p => decide (p.1 = k)).map (·.2)

/-! ## `Device::read` (src/device.rs) and its timestamps -/

/-- One line as assembled by `Device::read` before rendering: the
measurement (register name), the chained tag iterator
(`device.tags ++ register.tags ++ [modbus_id]`), the field value
`parse_data(..) * scaling` kept symbolic as the pair of its exact
operands (`f64` multiplication is a function of them), and the
quantized timestamp. -/
structure LineRec where
  measurement : String
  tags : List (String × String)
  value : FloatVal × Nat
  timestamp : Nat
deriving DecidableEq, Repr

/-- The timestamp rounding in `Device::read`:
`(timestamp / interval) * interval`. -/
def quantize (interval ts : Nat) : Nat := ts / interval * interval

/-- Result of `Device::read`: a successful line list, a Modbus error
propagated by `?`, or a panic (a response shorter than a register's
width makes `parse_data` index out of bounds). -/
inductive ReadResult where
  | ok (lines : List LineRec)
  | mbError
  | panic
deriving DecidableEq, Repr

/-- The inner loop of `Device::read`: one line per register of the
request's address range, all carrying the same already-quantized
timestamp `tsq` of the enclosing iteration. -/
def linesForRequest (dtags : List (String × String)) (idStr : String)
    (tsq : Nat) (start : Nat) (resp : List Nat) :
    List (Nat × Register) → Option (List LineRec)
  | [] => some []
  | (addr, reg) :: rest =>
    match reg.data_type.parse_data (resp.drop (addr - start)) with
    | none => none
    | some v =>
      match linesForRequest dtags idStr tsq start resp rest with
      | none => none
      | some ls =>
        some (⟨reg.name, dtags ++ reg.tags ++ [("modbus_id", idStr)],
          (v, reg.scaling), tsq⟩ :: ls)

/-- The outer loop of `Device::read` over the read requests.  `mb` is
the Modbus transport (`none` = transport error, propagated
immediately); `clock i` is the wall clock observed in the `i`-th
iteration — the source calls `SystemTime::now()` once *per request*,
after the Modbus response arrives. -/
def Device.readLoop (d : Device) (mb : Nat → Nat → Option (List Nat))
    (clock : Nat → Nat) : Nat → List Request → ReadResult
  | _, [] => .ok []
  | i, req :: rest =>
    match mb req.start req.len with
    | none => .mbError
    | some resp =>
      match linesForRequest d.tags (toString d.id)
          (quantize d.scan_interval (clock i)) req.start resp
          (d.input_registers.map.filter fun p =>
            decide (req.start ≤ p.1) && decide (p.1 < req.stop)) with
      | none => .panic
      | some ls =>
        match d.readLoop mb clock (i + 1) rest with
        | .ok more => .ok (ls ++ more)
        | r => r

/-- Embeds `Device::read` of src/device.rs. -/
def Device.read (d : Device) (mb : Nat → Nat → Option (List Nat))
    (clock : Nat → Nat) : ReadResult :=
  d.readLoop mb clock 0 d.input_registers.requests

/-- A `u16` register with default scaling and no tags. -/
def regU16 (name : String) : Register := ⟨.u16, one_f64_bits, name, []⟩

/-- Two `u16` registers far enough apart that the plan needs two read
requests. -/
def exMap : List (Nat × Register) := [(1, regU16 "a"), (8, regU16 "b")]

/-- The plan `Registers::new` builds for `exMap` (checked by `rfl` in
the counterexample below). -/
def exRegisters : Registers := ⟨exMap, [⟨1, 2⟩, ⟨8, 9⟩]⟩

/-- A device with a 10 ns scan interval and the two-request plan. -/
def exDevice : Device := ⟨1, 10, [], exRegisters⟩

/-- A transport that answers every request with the single word 7. -/
def exMb : Nat → Nat → Option (List Nat) := fun _ _ => some [7]

/-- A monotone wall clock that advances 10 ns between the two
requests, crossing a quantization boundary. -/
def exClock : Nat → Nat := fun i => 5 + 10 * i

/-! ## The reconnect loop of src/main.rs (`fn main`, `fn connection_task`) -/

/-- Outcome of one `sensor.read_registers` call as `connection_task`
(src/main.rs) distinguishes them: a successful read contributing
lines, a successful read contributing nothing, a recoverable Modbus
error (logged at warn level), or one of
`Exception`/`InvalidData`/`InvalidFunction`, on which the code
panics. -/
inductive SensorOutcome where
  | okData
  | okEmpty
  | errWarn
  | errPanic
deriving DecidableEq, Repr

/-- What one pass of the `loop` in `connection_task` does. -/
inductive IterStep where
  | panic
  | errReturn
  | next
deriving DecidableEq, Repr

/-- One pass of the `loop` in `connection_task` (src/main.rs): a fatal
Modbus error panics; otherwise, if no sensor contributed any line the
pass returns `Err` (`"Error detected at each sensor"`); otherwise the
lines are posted (HTTP failures only warn) and the loop continues
after sleeping one scan interval. -/
def connection_task_iter (outcomes : List SensorOutcome) : IterStep :=
  if SensorOutcome.errPanic ∈ outcomes then .panic
  else if SensorOutcome.okData ∈ outcomes then .next
  else .errReturn

/-- Observable state of `connection_task` after a bounded number of
passes. -/
inductive TaskResult where
  | running
  | panicked
  | returnedErr
deriving DecidableEq, Repr

/-- The `loop` of `connection_task`, run for at most `fuel` passes;
`trace k` gives the sensor outcomes of the `k`-th pass. -/
def connection_task_run (trace : Nat → List SensorOutcome) :
    Nat → Nat → TaskResult
  | 0, _ => .running
  | fuel + 1, k =>
    match connection_task_iter (trace k) with
    | .panic => .panicked
    | .errReturn => .returnedErr
    | .next => connection_task_run trace fuel (k + 1)

/-- Observable process state: the only terminal state of `fn main`'s
retry loop is a panic. -/
inductive ProcState where
  | running
  | panicked
deriving DecidableEq, Repr

/-- The `// Retry to connect forever` loop of `fn main` (src/main.rs):
`attempts j = none` models a failed `Transport::new_with_cfg` (error
logged, 10 s sleep, retry); `attempts j = some trace` models a
successful connection whose `connection_task` consumes `trace`.  When
`connection_task` returns its error, main logs
`"ModbusTCP: …, reconnecting in …"`, sleeps and loops. -/
def main_run (attempts : Nat → Option (Nat → List SensorOutcome)) :
    Nat → Nat → ProcState
  | 0, _ => .running
  | fuel + 1, j =>
    match attempts j with
    | none => main_run attempts fuel (j + 1)
    | some trace =>
      match connection_task_run trace (fuel + 1) 0 with
      | .panicked => .panicked
      | .returnedErr => main_run attempts fuel (j + 1)
      | .running => .running

/-! ## Theorems -/

/-! ### C1: the decoder reads exactly the first `width` words -/

lemma shiftLeft_lt_pow {x k s w : Nat} (h : x < 2 ^ k) (hw : k + s ≤ w) :
    x <<< s < 2 ^ w := by
  rw [Nat.shiftLeft_eq]
  calc x * 2 ^ s < 2 ^ k * 2 ^ s := by
        exact Nat.mul_lt_mul_of_lt_of_le h (le_refl _) (Nat.pos_pow_of_pos s (by norm_num))
    _ = 2 ^ (k + s) := (pow_add 2 k s).symm
    _ ≤ 2 ^ w := Nat.pow_le_pow_right (by norm_num) hw

lemma shl_mod_32 {x : Nat} (h : x < 2 ^ 16) :
    x <<< 16 % 4294967296 = x <<< 16 := by
  have hlt := shiftLeft_lt_pow h (by norm_num : 16 + 16 ≤ 32)
  norm_num at hlt
  exact Nat.mod_eq_of_lt hlt

lemma shl_mod_64 {x s : Nat} (h : x < 2 ^ 16) (hs : 16 + s ≤ 64) :
    x <<< s % 18446744073709551616 = x <<< s := by
  have hlt := shiftLeft_lt_pow h hs
  norm_num at hlt
  exact Nat.mod_eq_of_lt hlt

/-- Claim C1. For every `DataType t` and word slice `W` whose entries are
16-bit words and whose length is at least `t`'s width, `parse_data`
succeeds and returns exactly the value the specification describes
(first word for `u16`, big-endian unsigned composition for `u32`,
sign-extended composition for `i16`/`i32`, IEEE-754 reinterpretation of
the composed bit pattern for `f32`/`f64`), and the result only depends
on the first `width` words: excess words are ignored. -/
theorem parse_data_spec (t : DataType) (W : List Nat)
    (hbound : ∀ x ∈ W, x < 2 ^ 16) (hlen : t.num_registers ≤ W.length) :
    t.parse_data W = some (specDecode t W) ∧
      t.parse_data W = t.parse_data (W.take t.num_registers) := by
  cases t with
  | u16 =>
    rcases W with _ | ⟨w0, rest⟩
    · simp [DataType.num_registers] at hlen
    · simp [DataType.parse_data, specDecode, DataType.num_registers]
  | i16 =>
    rcases W with _ | ⟨w0, rest⟩
    · simp [DataType.num_registers] at hlen
    · simp [DataType.parse_data, specDecode, DataType.num_registers, composeWords]
  | u32 =>
    rcases W with _ | ⟨w0, _ | ⟨w1, rest⟩⟩ <;>
      simp [DataType.num_registers] at hlen
    have h0 : w0 < 2 ^ 16 := hbound w0 (by simp)
    simp [DataType.parse_data, specDecode, DataType.num_registers, composeWords,
      shl_mod_32 h0]
  | i32 =>
    rcases W with _ | ⟨w0, _ | ⟨w1, rest⟩⟩ <;>
      simp [DataType.num_registers] at hlen
    have h0 : w0 < 2 ^ 16 := hbound w0 (by simp)
    simp [DataType.parse_data, specDecode, DataType.num_registers, composeWords,
      shl_mod_32 h0]
  | f32 =>
    rcases W with _ | ⟨w0, _ | ⟨w1, rest⟩⟩ <;>
      simp [DataType.num_registers] at hlen
    have h0 : w0 < 2 ^ 16 := hbound w0 (by simp)
    simp [DataType.parse_data, specDecode, DataType.num_registers, composeWords,
      shl_mod_32 h0]
  | f64 =>
    rcases W with _ | ⟨w0, _ | ⟨w1, _ | ⟨w2, _ | ⟨w3, rest⟩⟩⟩⟩ <;>
      simp [DataType.num_registers] at hlen
    have h0 : w0 < 2 ^ 16 := hbound w0 (by simp)
    have h1 : w1 < 2 ^ 16 := hbound w1 (by simp)
    have h2 : w2 < 2 ^ 16 := hbound w2 (by simp)
    simp [DataType.parse_data, specDecode, DataType.num_registers, composeWords,
      shl_mod_64 h0 (by norm_num : 16 + 48 ≤ 64),
      shl_mod_64 h1 (by norm_num : 16 + 32 ≤ 64),
      shl_mod_64 h2 (by norm_num : 16 + 16 ≤ 64),
      Nat.lor_assoc]

/-- Witness for C1 at the test vector of src/device.rs
(`test_register_parse_data`). -/
theorem parse_data_spec_witness :
    DataType.i32.parse_data [0x2468, 0xACF0, 0x0002, 0x0004] =
        some (specDecode .i32 [0x2468, 0xACF0, 0x0002, 0x0004]) ∧
      DataType.i32.parse_data [0x2468, 0xACF0, 0x0002, 0x0004] =
        DataType.i32.parse_data
          ([0x2468, 0xACF0, 0x0002, 0x0004].take DataType.i32.num_registers) :=
  parse_data_spec .i32 [0x2468, 0xACF0, 0x0002, 0x0004] (by decide) (by decide)

lemma replaceChar_append (c : Char) (r : List Char) (s t : List Char) :
    replaceChar c r (s ++ t) = replaceChar c r s ++ replaceChar c r t := by
  induction s with
  | nil => rfl
  | cons a s ih => simp [replaceChar, ih]

lemma escape_meas_eq_cw (s : List Char) :
    escape_meas s = escapeCW [',', ' '] s := by
  induction s with
  | nil => rfl
  | cons a s ih =>
    unfold escape_meas at ih ⊢
    simp only [replaceChar, replaceChar_append]
    rw [ih]
    by_cases hc : a = ','
    · subst hc; simp [replaceChar, escapeCW]
    · by_cases hsp : a = ' '
      · subst hsp; simp [replaceChar, escapeCW]
      · simp [replaceChar, escapeCW, hc, hsp]

lemma escape_tag_eq_cw (s : List Char) :
    escape_tag s = escapeCW [',', ' ', '='] s := by
  unfold escape_tag
  rw [escape_meas_eq_cw]
  induction s with
  | nil => rfl
  | cons a s ih =>
    simp only [escapeCW, replaceChar_append]
    rw [ih]
    by_cases hc : a = ','
    · subst hc; simp [replaceChar, escapeCW]
    · by_cases hsp : a = ' '
      · subst hsp; simp [replaceChar, escapeCW]
      · by_cases he : a = '='
        · subst he; simp [replaceChar, escapeCW]
        · simp [replaceChar, escapeCW, hc, hsp, he]

lemma escapeCW_head {triggers : List Char} (hbs : '\\' ∉ triggers) (s : List Char) :
    ∀ b t, escapeCW triggers s = b :: t → b ∉ triggers := by
  intro b t hes
  cases s with
  | nil => simp [escapeCW] at hes
  | cons c cs =>
    simp only [escapeCW] at hes
    by_cases hct : c ∈ triggers
    · rw [if_pos hct] at hes
      simp at hes
      rw [← hes.1]
      exact hbs
    · rw [if_neg hct] at hes
      simp at hes
      rw [← hes.1]
      exact hct

lemma unescape_escapeCW {triggers : List Char} (hbs : '\\' ∉ triggers)
    (s : List Char) : unescape triggers (escapeCW triggers s) = s := by
  induction s with
  | nil => rfl
  | cons a s ih =>
    by_cases ht : a ∈ triggers
    · simp only [escapeCW, if_pos ht, List.cons_append, List.nil_append]
      simp [unescape, ht, ih]
    · simp only [escapeCW, if_neg ht, List.singleton_append]
      rcases hes : escapeCW triggers s with _ | ⟨b, t⟩
      · have hnil : s = [] := by
          cases s with
          | nil => rfl
          | cons c cs =>
            simp only [escapeCW] at hes
            split at hes <;> simp at hes
        subst hnil
        simp [escapeCW, unescape]
      · have hbt : b ∉ triggers := escapeCW_head hbs s b t hes
        have hred : unescape triggers (a :: b :: t) = a :: unescape triggers (b :: t) := by
          simp [unescape, hbt]
        rw [hred, ← hes, ih]

/-- Claim C8. For any measurement string, tag key and tag value that
contain one of the special characters `,`, space, `=`, the escaped
fields produced by the encoder (`escape_meas` for the measurement,
`escape_tag` for tag keys and values, exactly as `influxdb_line`
applies them) decode back to the original bytes under the inverse
escape rules. -/
theorem escape_roundtrip (m k v : List Char)
    (_hm : ∃ c ∈ m, c = ',' ∨ c = ' ' ∨ c = '=')
    (_hk : ∃ c ∈ k, c = ',' ∨ c = ' ' ∨ c = '=')
    (_hv : ∃ c ∈ v, c = ',' ∨ c = ' ' ∨ c = '=') :
    unescape_meas (escape_meas m) = m ∧
      unescape_tag (escape_tag k) = k ∧ unescape_tag (escape_tag v) = v := by
  refine ⟨?_, ?_, ?_⟩
  · rw [escape_meas_eq_cw]
    exact unescape_escapeCW (by decide) m
  · rw [escape_tag_eq_cw]
    exact unescape_escapeCW (by decide) k
  · rw [escape_tag_eq_cw]
    exact unescape_escapeCW (by decide) v

/-- Witness for C8 on concrete fields containing all three special
characters and a literal backslash. -/
theorem escape_roundtrip_witness :
    unescape_meas (escape_meas (String.toList "a,b c")) = String.toList "a,b c" ∧
      unescape_tag (escape_tag (String.toList "k=1,2")) = String.toList "k=1,2" ∧
        unescape_tag (escape_tag (String.toList "x\\= y")) = String.toList "x\\= y" :=
  escape_roundtrip (String.toList "a,b c") (String.toList "k=1,2")
    (String.toList "x\\= y") (by decide) (by decide) (by decide)

lemma one_le_num_registers (t : DataType) : 1 ≤ t.num_registers := by
  cases t <;> simp [DataType.num_registers]

/-! ### Invariants of the request-merging loop -/

lemma pushMerge_start (reqs : List Request) (curr : Request) :
    ∀ q ∈ pushMerge reqs curr,
      q.start = curr.start ∨ ∃ q' ∈ reqs, q.start = q'.start := by
  intro q hq
  match reqs with
  | [] => simp [pushMerge] at hq; simp [hq]
  | prev :: rest =>
    simp only [pushMerge] at hq
    split at hq
    · split at hq
      · rcases List.mem_cons.mp hq with h | h
        · exact Or.inr ⟨prev, by simp, by simp [h]⟩
        · exact Or.inr ⟨q, by simp [h], rfl⟩
      · rcases List.mem_cons.mp hq with h | h
        · exact Or.inr ⟨prev, by simp, by simp [h]⟩
        · exact Or.inr ⟨q, by simp [h], rfl⟩
    · rcases List.mem_cons.mp hq with h | h
      · exact Or.inl (by simp [h])
      · exact Or.inr ⟨q, h, rfl⟩

lemma pushMerge_wf {reqs : List Request} {curr : Request}
    (hwf : ∀ q ∈ reqs, q.start < q.stop) (hc : curr.start < curr.stop) :
    ∀ q ∈ pushMerge reqs curr, q.start < q.stop := by
  intro q hq
  match reqs with
  | [] => simp [pushMerge] at hq; simp [hq, hc]
  | prev :: rest =>
    have hprev : prev.start < prev.stop := hwf prev (by simp)
    simp only [pushMerge] at hq
    split at hq
    · split at hq <;> rcases List.mem_cons.mp hq with h | h
      · subst h; exact lt_trans hprev (by assumption)
      · exact hwf q (by simp [h])
      · subst h; exact hprev
      · exact hwf q (by simp [h])
    · rcases List.mem_cons.mp hq with h | h
      · subst h; exact hc
      · exact hwf q h

lemma pushMerge_pairwise {reqs : List Request} {curr : Request}
    (hpw : List.Pairwise (fun newer older => older.stop < newer.start) reqs)
    (hwf : ∀ q ∈ reqs, q.start < q.stop) :
    List.Pairwise (fun newer older => older.stop < newer.start)
      (pushMerge reqs curr) := by
  match reqs with
  | [] => simp [pushMerge]
  | prev :: rest =>
    have hprev : prev.start < prev.stop := hwf prev (by simp)
    rcases List.pairwise_cons.mp hpw with ⟨hhead, htail⟩
    simp only [pushMerge]
    split
    · split
      · exact List.pairwise_cons.mpr ⟨fun q hq => hhead q hq, htail⟩
      · exact hpw
    · refine List.pairwise_cons.mpr ⟨?_, hpw⟩
      intro q hq
      rcases List.mem_cons.mp hq with h | h
      · subst h; omega
      · have := hhead q h
        omega

lemma covers_true_iff (q : Request) (a w : Nat) :
    q.covers a w = true ↔ q.start ≤ a ∧ a + w ≤ q.stop := by
  simp [Request.covers]

lemma covers_false_of_not (q : Request) (a w : Nat)
    (h : ¬ (q.start ≤ a ∧ a + w ≤ q.stop)) : q.covers a w = false := by
  simp only [Request.covers, Bool.and_eq_false_iff, decide_eq_false_iff_not]
  omega

lemma countP_covers_preserved {reqs : List Request} {curr : Request} {a w : Nat}
    (hpw : List.Pairwise (fun newer older => older.stop < newer.start) reqs)
    (hwf : ∀ q ∈ reqs, q.start < q.stop)
    (hw : 1 ≤ w) (ha : a < curr.start)
    (hcount : reqs.countP (fun q => q.covers a w) = 1) :
    (pushMerge reqs curr).countP (fun q => q.covers a w) = 1 := by
  match reqs with
  | [] => simp at hcount
  | prev :: rest =>
    rcases List.pairwise_cons.mp hpw with ⟨hhead, htail⟩
    simp only [pushMerge]
    split
    · split
      · -- the head request is extended to `curr.stop`
        rw [List.countP_cons] at hcount ⊢
        by_cases hcov : prev.start ≤ a ∧ a + w ≤ prev.stop
        · have h1 : prev.covers a w = true := (covers_true_iff _ _ _).mpr hcov
          have h2 : Request.covers ⟨prev.start, curr.stop⟩ a w = true := by
            rw [covers_true_iff]
            exact ⟨hcov.1, by simp; omega⟩
          simp only [h1, h2] at hcount ⊢
          simpa using hcount
        · -- the register is covered by an older request; the extended
          -- head still does not cover it
          have h1 : prev.covers a w = false := covers_false_of_not _ _ _ hcov
          have hrest : rest.countP (fun q => q.covers a w) = 1 := by
            simpa [h1] using hcount
          have hpos : 0 < rest.countP (fun q => q.covers a w) := by omega
          obtain ⟨q, hqmem, hqcov⟩ := List.countP_pos_iff.mp hpos
          have hqc : q.start ≤ a ∧ a + w ≤ q.stop := by
            simpa [Request.covers] using hqcov
          have hqlt : q.stop < prev.start := hhead q hqmem
          have h2 : Request.covers ⟨prev.start, curr.stop⟩ a w = false := by
            apply covers_false_of_not
            simp only [not_and]
            intro hc1
            omega
          simp only [h2, hrest]
          simp
      · exact hcount
    · -- a fresh request is pushed; it starts above `a` so it cannot cover
      have h1 : Request.covers curr a w = false := by
        apply covers_false_of_not
        simp only [not_and]
        intro hc1
        omega
      rw [List.countP_cons, h1]
      simpa using hcount

lemma countP_covers_new {reqs : List Request} {a w : Nat}
    (hpw : List.Pairwise (fun newer older => older.stop < newer.start) reqs)
    (hwf : ∀ q ∈ reqs, q.start < q.stop)
    (hstart : ∀ q ∈ reqs, q.start < a) (hw : 1 ≤ w) :
    (pushMerge reqs ⟨a, a + w⟩).countP (fun q => q.covers a w) = 1 := by
  match reqs with
  | [] =>
    simp [pushMerge, Request.covers]
  | prev :: rest =>
    have hprev : prev.start < prev.stop := hwf prev (by simp)
    have hpa : prev.start < a := hstart prev (by simp)
    rcases List.pairwise_cons.mp hpw with ⟨hhead, htail⟩
    have hrest0 : rest.countP (fun q => q.covers a w) = 0 := by
      rw [List.countP_eq_zero]
      intro q hq
      have h1 : q.stop < prev.start := hhead q hq
      simp only [Request.covers, Bool.and_eq_true, decide_eq_true_eq]
      omega
    simp only [pushMerge]
    split
    · split
      · have hcov : Request.covers ⟨prev.start, a + w⟩ a w = true := by
          simp [Request.covers]
          omega
        rw [List.countP_cons, hrest0, hcov]
        simp
      · have hcov : prev.covers a w = true := by
          simp only [Request.covers, Bool.and_eq_true, decide_eq_true_eq]
          constructor
          · omega
          · omega
        rw [List.countP_cons, hrest0, hcov]
        simp
    · have hcov : Request.covers ⟨a, a + w⟩ a w = true := by
        simp [Request.covers]
      have hnprev : prev.covers a w = false := by
        simp only [Request.covers, Bool.and_eq_false_iff, decide_eq_false_iff_not]
        right
        omega
      rw [List.countP_cons, List.countP_cons, hrest0, hcov, hnprev]
      simp

lemma countP_reverse (l : List Request) (p : Request → Bool) :
    l.reverse.countP p = l.countP p := by
  induction l with
  | nil => rfl
  | cons a l ih => simp [List.countP_cons, List.countP_append, ih]

lemma buildRequests_spec :
    ∀ (l : List (Nat × Register)) (acc res : List Request),
      List.Pairwise (fun p q => p.1 < q.1) l →
      (∀ q ∈ acc, ∀ p ∈ l, q.start < p.1) →
      List.Pairwise (fun newer older => older.stop < newer.start) acc →
      (∀ q ∈ acc, q.start < q.stop) →
      buildRequests l acc = some res →
      (List.Pairwise (fun newer older => older.stop < newer.start) res ∧
        (∀ q ∈ res, q.start < q.stop)) ∧
      (∀ a w, 1 ≤ w → (∀ p ∈ l, a < p.1) →
        acc.countP (fun q => q.covers a w) = 1 →
        res.countP (fun q => q.covers a w) = 1) ∧
      (∀ p ∈ l, res.countP (fun q => q.covers p.1 p.2.data_type.num_registers) = 1) := by
  intro l
  induction l with
  | nil =>
    intro acc res _ _ hpw hwf hres
    simp only [buildRequests] at hres
    injection hres with h
    subst h
    refine ⟨⟨hpw, hwf⟩, ?_, ?_⟩
    · intro a w _ _ hacc
      exact hacc
    · intro p hp
      simp at hp
  | cons hd rest ih =>
    intro acc res hsorted hstarts hpw hwf hres
    obtain ⟨a0, r0⟩ := hd
    rcases List.pairwise_cons.mp hsorted with ⟨hhd, hsorted'⟩
    have hw0 : 1 ≤ r0.data_type.num_registers := one_le_num_registers _
    simp only [buildRequests] at hres
    rcases hnew : Request.new a0 r0.data_type.num_registers with _ | curr
    · simp only [hnew] at hres
      exact Option.noConfusion hres
    · simp only [hnew] at hres
      have hcurr : curr = ⟨a0, a0 + r0.data_type.num_registers⟩ := by
        simp only [Request.new] at hnew
        split at hnew
        · injection hnew with h
          exact h.symm
        · cases hnew
      subst hcurr
      have hcs : (⟨a0, a0 + r0.data_type.num_registers⟩ : Request).start <
          (⟨a0, a0 + r0.data_type.num_registers⟩ : Request).stop := by
        simp
        omega
      have hstarts' : ∀ q ∈ pushMerge acc ⟨a0, a0 + r0.data_type.num_registers⟩,
          ∀ p ∈ rest, q.start < p.1 := by
        intro q hq p hp
        rcases pushMerge_start acc _ q hq with h | ⟨q', hq', h⟩
        · rw [h]
          exact hhd p hp
        · rw [h]
          exact hstarts q' hq' p (List.mem_cons_of_mem _ hp)
      have H := ih (pushMerge acc ⟨a0, a0 + r0.data_type.num_registers⟩) res hsorted'
        hstarts' (pushMerge_pairwise hpw hwf) (pushMerge_wf hwf hcs) hres
      refine ⟨H.1, ?_, ?_⟩
      · intro a w hw hal hacc
        refine H.2.1 a w hw (fun p hp => hal p (List.mem_cons_of_mem _ hp)) ?_
        exact countP_covers_preserved hpw hwf hw (hal (a0, r0) (List.mem_cons_self _ _)) hacc
      · intro p hp
        rcases List.mem_cons.mp hp with h | h
        · subst h
          refine H.2.1 a0 r0.data_type.num_registers hw0 hhd ?_
          exact countP_covers_new hpw hwf
            (fun q hq => hstarts q hq (a0, r0) (List.mem_cons_self _ _)) hw0
        · exact H.2.2 p h

/-- Claim C4. For every address-sorted register map for which plan
construction succeeds, and every register at address `a` of width `w`
in the map, the produced read requests contain exactly one request
`[s, e)` with `s ≤ a` and `a + w ≤ e`. -/
theorem plan_coverage (map : List (Nat × Register)) (regs : Registers)
    (hsorted : List.Pairwise (fun p q => p.1 < q.1) map)
    (hnew : Registers.new map = some regs)
    (a : Nat) (r : Register) (hmem : (a, r) ∈ map) :
    regs.requests.countP (fun q => q.covers a r.data_type.num_registers) = 1 := by
  rcases hb : buildRequests map [] with _ | reqs
  · rw [Registers.new, hb] at hnew
    simp at hnew
  · rw [Registers.new, hb] at hnew
    simp only [Option.map_some'] at hnew
    injection hnew with h
    subst h
    have H := buildRequests_spec map [] reqs hsorted (by simp) (by simp) (by simp) hb
    have hc := H.2.2 (a, r) hmem
    simpa [countP_reverse] using hc

/-- Witness for C4 on the overlapping-register scenario of
src/device.rs (`test_requests_from_registers_overlapping`):
registers `{1: f64, 3: u16}` produce the single request `[1, 5)` and
the register at address 3 is covered exactly once. -/
theorem plan_coverage_witness :
    (Registers.mk [(1, ⟨.f64, 0, "foobar", []⟩), (3, ⟨.u16, 0, "quxbaz", []⟩)]
        [⟨1, 5⟩]).requests.countP
      (fun q => q.covers 3 (Register.mk .u16 0 "quxbaz" []).data_type.num_registers) = 1 :=
  plan_coverage [(1, ⟨.f64, 0, "foobar", []⟩), (3, ⟨.u16, 0, "quxbaz", []⟩)]
    (Registers.mk [(1, ⟨.f64, 0, "foobar", []⟩), (3, ⟨.u16, 0, "quxbaz", []⟩)] [⟨1, 5⟩])
    (by decide) (by decide) 3 ⟨.u16, 0, "quxbaz", []⟩ (by decide)

/-- Claim C5. For every address-sorted register map for which plan
construction succeeds, every pair of adjacent read requests `I, J` (in
construction order) satisfies `J.start > I.end` strictly: no two
adjacent requests overlap or touch. -/
theorem plan_minimality (map : List (Nat × Register)) (regs : Registers)
    (hsorted : List.Pairwise (fun p q => p.1 < q.1) map)
    (hnew : Registers.new map = some regs) :
    List.Chain' (fun I J => I.stop < J.start) regs.requests := by
  rcases hb : buildRequests map [] with _ | reqs
  · rw [Registers.new, hb] at hnew
    simp at hnew
  · rw [Registers.new, hb] at hnew
    simp only [Option.map_some'] at hnew
    injection hnew with h
    subst h
    have H := buildRequests_spec map [] reqs hsorted (by simp) (by simp) (by simp) hb
    have hpw : List.Pairwise (fun I J => I.stop < J.start) reqs.reverse :=
      List.pairwise_reverse.mpr H.1.1
    exact hpw.chain'

/-- Witness for C5 on the split scenario of src/device.rs
(`test_requests_from_registers_split`): registers `{1: f32, 8: u16}`
produce requests `[1, 3)` and `[8, 9)` with a strict gap. -/
theorem plan_minimality_witness :
    List.Chain' (fun I J => I.stop < J.start)
      (Registers.mk [(1, ⟨.f32, 0, "foobar", []⟩), (8, ⟨.u16, 0, "quxbaz", []⟩)]
        [⟨1, 3⟩, ⟨8, 9⟩]).requests :=
  plan_minimality [(1, ⟨.f32, 0, "foobar", []⟩), (8, ⟨.u16, 0, "quxbaz", []⟩)]
    (Registers.mk [(1, ⟨.f32, 0, "foobar", []⟩), (8, ⟨.u16, 0, "quxbaz", []⟩)]
      [⟨1, 3⟩, ⟨8, 9⟩])
    (by decide) (by decide)

/-- Claim C6, counterexample. Plan construction does *not* succeed for
every map of valid `u16` addresses: a `u16` register at address 65535
makes `Request::new` compute `end = addr + len = 65536`, which
overflows `u16` (a panic in a debug build), so construction fails. -/
theorem plan_overflow_at_65535 :
    Registers.new [(65535, ⟨.u16, 0, "r", []⟩)] = none := by
  rfl

/-- Claim C6, amended. Plan construction succeeds (never fails, panics or
overflows) for every register map in which each register's word range
fits below the `u16` limit, i.e. `addr + width ≤ 65535`. -/
theorem plan_total_of_fits (map : List (Nat × Register))
    (hfit : ∀ p ∈ map, p.1 + p.2.data_type.num_registers < 2 ^ 16) :
    (Registers.new map).isSome := by
  suffices h : ∀ (l : List (Nat × Register)) (acc : List Request),
      (∀ p ∈ l, p.1 + p.2.data_type.num_registers < 2 ^ 16) →
      ∃ r, buildRequests l acc = some r by
    rcases h map [] hfit with ⟨r, hr⟩
    simp [Registers.new, hr]
  intro l
  induction l with
  | nil =>
    intro acc _
    exact ⟨acc, rfl⟩
  | cons hd rest ih =>
    intro acc hfit'
    obtain ⟨a0, r0⟩ := hd
    have h0 : a0 + r0.data_type.num_registers < 2 ^ 16 := hfit' (a0, r0) (List.mem_cons_self _ _)
    rcases ih (pushMerge acc ⟨a0, a0 + r0.data_type.num_registers⟩)
        (fun p hp => hfit' p (List.mem_cons_of_mem _ hp)) with ⟨r, hr⟩
    refine ⟨r, ?_⟩
    simp only [buildRequests, Request.new, if_pos h0]
    exact hr

/-- Witness for the amended C6 on the consecutive-register scenario of
src/device.rs (`test_registers_consecutive`). -/
theorem plan_total_of_fits_witness :
    (Registers.new [(1, ⟨.f32, 0, "foobar", []⟩), (3, ⟨.u16, 0, "quxbaz", []⟩)]).isSome :=
  plan_total_of_fits [(1, ⟨.f32, 0, "foobar", []⟩), (3, ⟨.u16, 0, "quxbaz", []⟩)]
    (by decide)

/-! ### C9: an unknown template name is silently ignored -/

/-- Claim C9. For every device section whose `template` field names a
template absent from the templates map, device construction behaves
exactly as if no template had been given: the unknown name is not
reported and the empty scaffold is used, so `id` and `scan_interval`
must come from the device section itself. -/
theorem unknown_template_ignored (pd : String → Option Nat)
    (tpls : List (String × DeviceConfig)) (cfg : DeviceConfig) (name : String)
    (hname : cfg.template = some name) (hmiss : lookupTemplate tpls name = none) :
    device_from_config pd tpls cfg =
      device_from_config pd tpls { cfg with template := none } := by
  unfold device_from_config mergedScaffold
  rw [hname]
  simp [hmiss]

/-- Witness for C9: a device section naming the absent template
`"ghost"` builds the same device as the section without a template. -/
theorem unknown_template_ignored_witness :
    device_from_config (fun _ => some 1000000000) []
        ⟨some "ghost", some 1, some "1s", [], []⟩ =
      device_from_config (fun _ => some 1000000000) []
        ⟨none, some 1, some "1s", [], []⟩ :=
  unknown_template_ignored (fun _ => some 1000000000) []
    ⟨some "ghost", some 1, some "1s", [], []⟩ "ghost" rfl rfl

/-! ### C7: the xor-merge of the scalar fields `id` and `scan_interval` -/

lemma optXor_none_iff {α : Type} (a b : Option α) :
    optXor a b = none ↔ a.isSome = b.isSome := by
  cases a <;> cases b <;> simp [optXor]

lemma optXor_some_of_ne {α : Type} (a b : Option α)
    (h : a.isSome ≠ b.isSome) : ∃ x, optXor a b = some x := by
  cases a <;> cases b <;> simp_all [optXor]

lemma optXor_eq_some_iff {α : Type} (a b : Option α) (x : α) :
    optXor a b = some x ↔ (a = some x ∧ b = none) ∨ (a = none ∧ b = some x) := by
  cases a <;> cases b <;> simp [optXor]

/-- Inversion of a successful `device_from_config`: every stage of the
merge succeeded and the device is assembled from the merged values. -/
lemma device_from_config_ok_inv (pd : String → Option Nat)
    (tpls : List (String × DeviceConfig)) (cfg : DeviceConfig) (dev : Device)
    (hok : device_from_config pd tpls cfg = .ok dev) :
    ∃ i s ns entries r,
      optXor (mergedScaffold tpls cfg).id cfg.id = some i ∧
      optXor (mergedScaffold tpls cfg).scan_interval cfg.scan_interval = some s ∧
      pd s = some ns ∧
      mapRegisters ((mergedScaffold tpls cfg).input_registers ++
        cfg.input_registers) = .ok entries ∧
      Registers.new (btCollect entries) = some r ∧
      dev = ⟨i, ns, btAppend (mergedScaffold tpls cfg).tags cfg.tags, r⟩ := by
  simp only [device_from_config] at hok
  rcases hxa : optXor (mergedScaffold tpls cfg).id cfg.id with _ | i
  · simp only [hxa] at hok
    exact Except.noConfusion hok
  · simp only [hxa] at hok
    rcases hxs : optXor (mergedScaffold tpls cfg).scan_interval cfg.scan_interval
      with _ | s
    · simp only [hxs] at hok
      exact Except.noConfusion hok
    · simp only [hxs] at hok
      rcases hpd : pd s with _ | ns
      · simp only [hpd] at hok
        exact Except.noConfusion hok
      · simp only [hpd] at hok
        rcases hmr : mapRegisters ((mergedScaffold tpls cfg).input_registers ++
            cfg.input_registers) with e | entries
        · simp only [hmr] at hok
          exact Except.noConfusion hok
        · simp only [hmr] at hok
          rcases hdn : Device.new i ns
              (btAppend (mergedScaffold tpls cfg).tags cfg.tags)
              (btCollect entries) with _ | d
          · simp only [hdn] at hok
            exact Except.noConfusion hok
          · simp only [hdn] at hok
            injection hok with hdd
            subst hdd
            rcases hreg : Registers.new (btCollect entries) with _ | r
            · rw [Device.new, hreg] at hdn
              exact Option.noConfusion hdn
            · rw [Device.new, hreg] at hdn
              simp only [Option.map_some'] at hdn
              injection hdn with hd
              exact ⟨i, s, ns, entries, r, rfl, rfl, hpd, rfl, hreg, hd.symm⟩

/-- Claim C7, amended. Each of the scalar fields `id` and
`scan_interval` must be present in exactly one of the template
scaffold and the device section.  If a field is present in both or in
neither, the merge fails with the `expect` panic message naming that
field (`id` is checked first) — the message does not name the device.
When the build succeeds, each field's value is the one supplied by
whichever single side provided it. -/
theorem scalar_field_xor_merge (pd : String → Option Nat)
    (tpls : List (String × DeviceConfig)) (cfg : DeviceConfig) :
    ((mergedScaffold tpls cfg).id.isSome = cfg.id.isSome →
      device_from_config pd tpls cfg =
        .error "Field `id`: Is it missing or defined both in template and device section?") ∧
    ((mergedScaffold tpls cfg).id.isSome ≠ cfg.id.isSome →
      (mergedScaffold tpls cfg).scan_interval.isSome = cfg.scan_interval.isSome →
      device_from_config pd tpls cfg =
        .error "Field `scan_interval`: Is it missing or defined both in template and device section?") ∧
    (∀ dev, device_from_config pd tpls cfg = .ok dev →
      (((mergedScaffold tpls cfg).id = some dev.id ∧ cfg.id = none) ∨
        ((mergedScaffold tpls cfg).id = none ∧ cfg.id = some dev.id)) ∧
      ∃ s, (((mergedScaffold tpls cfg).scan_interval = some s ∧
            cfg.scan_interval = none) ∨
          ((mergedScaffold tpls cfg).scan_interval = none ∧
            cfg.scan_interval = some s)) ∧
        pd s = some dev.scan_interval) := by
  refine ⟨?_, ?_, ?_⟩
  · intro h
    have hx : optXor (mergedScaffold tpls cfg).id cfg.id = none :=
      (optXor_none_iff _ _).mpr h
    simp [device_from_config, hx]
  · intro hne hsi
    obtain ⟨i, hi⟩ := optXor_some_of_ne _ _ hne
    have hx : optXor (mergedScaffold tpls cfg).scan_interval cfg.scan_interval =
        none := (optXor_none_iff _ _).mpr hsi
    simp [device_from_config, hi, hx]
  · intro dev hdev
    obtain ⟨i, s, ns, entries, r, hxa, hxs, hpd, _, _, hdev_eq⟩ :=
      device_from_config_ok_inv pd tpls cfg dev hdev
    have hid : dev.id = i := by rw [hdev_eq]
    have hns : dev.scan_interval = ns := by rw [hdev_eq]
    subst hid
    refine ⟨(optXor_eq_some_iff _ _ _).mp hxa, s, (optXor_eq_some_iff _ _ _).mp hxs, ?_⟩
    rw [hns]
    exact hpd

/-- Claim C7, counterexample. The failure message of a conflicting (here:
missing-on-both-sides) scalar field is one fixed string naming only the
field: two entirely different device sections produce the identical
message, so the error does not name the device, and no
`ErrorKind::ConfigConflict` value exists — the code panics instead. -/
theorem conflict_message_no_device :
    device_from_config (fun _ => some 1000000000) []
        ⟨none, none, some "1s", [("site", "a")], []⟩ =
      .error "Field `id`: Is it missing or defined both in template and device section?" ∧
    device_from_config (fun _ => some 1000000000) []
        ⟨none, none, some "2s", [("site", "b")], [.simple 7]⟩ =
      .error "Field `id`: Is it missing or defined both in template and device section?" ∧
    (⟨none, none, some "1s", [("site", "a")], []⟩ : DeviceConfig) ≠
      ⟨none, none, some "2s", [("site", "b")], [.simple 7]⟩ :=
  ⟨rfl, rfl, by decide⟩

/-- Witness for the amended C7: with `id` present on neither side the
merge fails with the fixed `id` message. -/
theorem scalar_field_xor_merge_witness :
    device_from_config (fun _ => none) []
        ⟨none, none, some "1s", [], []⟩ =
      .error "Field `id`: Is it missing or defined both in template and device section?" :=
  (scalar_field_xor_merge (fun _ => none) [] ⟨none, none, some "1s", [], []⟩).1 rfl

lemma btLookup_cons {K V : Type} [DecidableEq K] (k a : K) (b : V)
    (rest : List (K × V)) :
    btLookup k ((a, b) :: rest) = if a = k then some b else btLookup k rest := by
  by_cases h : a = k
  · unfold btLookup
    rw [List.find?_cons_of_pos _ (by simp [h])]
    simp [h]
  · unfold btLookup
    rw [List.find?_cons_of_neg _ (by simp [h])]
    simp [h]

lemma btLookup_insert {K V : Type} [LinearOrder K] (k j : K) (v : V)
    (m : List (K × V)) :
    btLookup k (btInsert j v m) = if j = k then some v else btLookup k m := by
  induction m with
  | nil =>
    simp only [btInsert]
    rw [btLookup_cons]
  | cons p rest ih =>
    obtain ⟨k1, v1⟩ := p
    simp only [btInsert]
    rcases lt_trichotomy j k1 with hlt | heq | hgt
    · rw [if_pos hlt, btLookup_cons]
    · subst heq
      rw [if_neg (lt_irrefl j), if_pos rfl, btLookup_cons, btLookup_cons]
      by_cases h : j = k <;> simp [h]
    · rw [if_neg (lt_asymm hgt), if_neg (ne_of_gt hgt), btLookup_cons,
        btLookup_cons, ih]
      by_cases h1 : k1 = k
      · subst h1
        simp [ne_of_gt hgt]
      · simp [h1]

lemma btCollect_append_singleton {K V : Type} [LinearOrder K]
    (l : List (K × V)) (p : K × V) :
    btCollect (l ++ [p]) = btInsert p.1 p.2 (btCollect l) := by
  simp [btCollect, List.foldl_append]

/-- A `BTreeMap` collected from an iterator of key–value pairs holds,
at each key, the value of the *last* pair with that key. -/
lemma btLookup_btCollect {K V : Type} [LinearOrder K] (l : List (K × V)) (k : K) :
    btLookup k (btCollect l) = lastWith k l := by
  induction l using List.reverseRecOn with
  | nil => rfl
  | append_singleton l p ih =>
    rw [btCollect_append_singleton, btLookup_insert, ih]
    unfold lastWith
    rw [List.reverse_append]
    simp only [List.reverse_cons, List.reverse_nil, List.nil_append,
      List.singleton_append]
    by_cases h : p.1 = k
    · rw [if_pos h, List.find?_cons_of_pos _ (by simp [h])]
      rfl
    · rw [if_neg h, List.find?_cons_of_neg _ (by simp [h])]

lemma btInsert_mem {K V : Type} [LinearOrder K] (k : K) (v : V)
    (m : List (K × V)) : ∀ p ∈ btInsert k v m, p = (k, v) ∨ p ∈ m := by
  induction m with
  | nil => simp [btInsert]
  | cons q rest ih =>
    obtain ⟨k1, v1⟩ := q
    intro p hp
    simp only [btInsert] at hp
    split at hp
    · rcases List.mem_cons.mp hp with h | h
      · exact Or.inl h
      · exact Or.inr h
    · split at hp
      · rcases List.mem_cons.mp hp with h | h
        · exact Or.inl h
        · exact Or.inr (List.mem_cons_of_mem _ h)
      · rcases List.mem_cons.mp hp with h | h
        · exact Or.inr (by simp [h])
        · rcases ih p h with h2 | h2
          · exact Or.inl h2
          · exact Or.inr (List.mem_cons_of_mem _ h2)

lemma btInsert_sorted {K V : Type} [LinearOrder K] (k : K) (v : V)
    (m : List (K × V)) (hs : List.Pairwise (fun p q => p.1 < q.1) m) :
    List.Pairwise (fun p q => p.1 < q.1) (btInsert k v m) := by
  induction m with
  | nil => simp [btInsert]
  | cons q rest ih =>
    obtain ⟨k1, v1⟩ := q
    rcases List.pairwise_cons.mp hs with ⟨hhead, htail⟩
    simp only [btInsert]
    rcases lt_trichotomy k k1 with hlt | heq | hgt
    · rw [if_pos hlt]
      refine List.pairwise_cons.mpr ⟨?_, hs⟩
      intro p hp
      rcases List.mem_cons.mp hp with h | h
      · rw [h]
        exact hlt
      · exact lt_trans hlt (hhead p h)
    · rw [if_neg (by simp [heq]), if_pos heq]
      refine List.pairwise_cons.mpr ⟨?_, htail⟩
      intro p hp
      rw [heq]
      exact hhead p hp
    · rw [if_neg (lt_asymm hgt), if_neg (ne_of_gt hgt)]
      refine List.pairwise_cons.mpr ⟨?_, ih htail⟩
      intro p hp
      rcases btInsert_mem k v rest p hp with h | h
      · rw [h]
        exact hgt
      · exact hhead p h

lemma btCollect_sorted {K V : Type} [LinearOrder K] (l : List (K × V)) :
    List.Pairwise (fun p q => p.1 < q.1) (btCollect l) := by
  induction l using List.reverseRecOn with
  | nil => simp [btCollect]
  | append_singleton l p ih =>
    rw [btCollect_append_singleton]
    exact btInsert_sorted p.1 p.2 _ ih

/-- Claim C10. For every device build that succeeds, the constructed
device holds exactly one register per address — its register map has
strictly increasing addresses — and the register stored at address `a`
is the conversion of the entry occurring *last* among the concatenated
register entries (template entries first, then device-section entries):
a device-section register silently replaces a template register at the
same address, with no error reported. -/
theorem register_last_wins (pd : String → Option Nat)
    (tpls : List (String × DeviceConfig)) (cfg : DeviceConfig) (dev : Device)
    (entries : List (Nat × Register))
    (hentries : mapRegisters ((mergedScaffold tpls cfg).input_registers ++
      cfg.input_registers) = .ok entries)
    (hok : device_from_config pd tpls cfg = .ok dev) (a : Nat) :
    btLookup a dev.input_registers.map = lastWith a entries ∧
      List.Pairwise (fun p q => p.1 < q.1) dev.input_registers.map := by
  obtain ⟨i, s, ns, entries2, r, _, _, _, hmr, hreg, hdev_eq⟩ :=
    device_from_config_ok_inv pd tpls cfg dev hok
  have hent : entries2 = entries := by
    rw [hentries] at hmr
    injection hmr with h
    exact h.symm
  rw [hent] at hreg
  have hmap : dev.input_registers.map = btCollect entries := by
    rw [hdev_eq]
    rcases hb : buildRequests (btCollect entries) [] with _ | reqs
    · rw [Registers.new, hb] at hreg
      exact Option.noConfusion hreg
    · rw [Registers.new, hb] at hreg
      simp only [Option.map_some'] at hreg
      injection hreg with h
      rw [← h]
  rw [hmap]
  exact ⟨btLookup_btCollect entries a, btCollect_sorted entries⟩

/-- Witness for C10: a template register at address 1 is replaced by
the device-section register `quxbaz` at the same address. -/
theorem register_last_wins_witness :
    btLookup 1 (Device.mk 1 1000000000 []
        (Registers.mk [(1, ⟨.u16, one_f64_bits, "quxbaz", []⟩)]
          [⟨1, 2⟩])).input_registers.map =
      lastWith 1 [(1, (⟨.u16, one_f64_bits, "input_register_1", []⟩ : Register)),
        (1, ⟨.u16, one_f64_bits, "quxbaz", []⟩)] ∧
    List.Pairwise (fun p q => p.1 < q.1)
      (Device.mk 1 1000000000 []
        (Registers.mk [(1, ⟨.u16, one_f64_bits, "quxbaz", []⟩)]
          [⟨1, 2⟩])).input_registers.map :=
  register_last_wins (fun _ => some 1000000000)
    [("tpl", ⟨none, none, some "1s", [], [.simple 1]⟩)]
    ⟨some "tpl", some 1, none, [], [.advanced 1 "quxbaz" none none []]⟩
    (Device.mk 1 1000000000 []
      (Registers.mk [(1, ⟨.u16, one_f64_bits, "quxbaz", []⟩)] [⟨1, 2⟩]))
    [(1, ⟨.u16, one_f64_bits, "input_register_1", []⟩),
      (1, ⟨.u16, one_f64_bits, "quxbaz", []⟩)]
    rfl rfl 1

/-! ### C2: timestamps are captured per request, not per call -/

lemma linesForRequest_timestamp (dtags : List (String × String)) (idStr : String)
    (tsq start : Nat) (resp : List Nat) :
    ∀ (regs : List (Nat × Register)) (ls : List LineRec),
      linesForRequest dtags idStr tsq start resp regs = some ls →
      ∀ l ∈ ls, l.timestamp = tsq := by
  intro regs
  induction regs with
  | nil =>
    intro ls h
    injection h with h
    subst h
    simp
  | cons p rest ih =>
    intro ls h
    obtain ⟨addr, reg⟩ := p
    simp only [linesForRequest] at h
    rcases hp : reg.data_type.parse_data (resp.drop (addr - start)) with _ | v
    · simp only [hp] at h
      exact Option.noConfusion h
    · simp only [hp] at h
      rcases hrest : linesForRequest dtags idStr tsq start resp rest with _ | ls2
      · simp only [hrest] at h
        exact Option.noConfusion h
      · simp only [hrest] at h
        injection h with h
        subst h
        intro l hl
        rcases List.mem_cons.mp hl with h | h
        · rw [h]
        · exact ih ls2 hrest l h

lemma readLoop_timestamp_dvd (d : Device) (mb : Nat → Nat → Option (List Nat))
    (clock : Nat → Nat) :
    ∀ (reqs : List Request) (i : Nat) (lines : List LineRec),
      d.readLoop mb clock i reqs = .ok lines →
      ∀ l ∈ lines, d.scan_interval ∣ l.timestamp := by
  intro reqs
  induction reqs with
  | nil =>
    intro i lines h
    simp only [Device.readLoop] at h
    injection h with h
    subst h
    simp
  | cons req rest ih =>
    intro i lines h
    simp only [Device.readLoop] at h
    rcases hmb : mb req.start req.len with _ | resp
    · simp only [hmb] at h
      exact ReadResult.noConfusion h
    · simp only [hmb] at h
      rcases hlf : linesForRequest d.tags (toString d.id)
          (quantize d.scan_interval (clock i)) req.start resp
          (d.input_registers.map.filter fun p =>
            decide (req.start ≤ p.1) && decide (p.1 < req.stop)) with _ | ls
      · simp only [hlf] at h
        exact ReadResult.noConfusion h
      · simp only [hlf] at h
        rcases hrec : d.readLoop mb clock (i + 1) rest with more | _ | _
        · simp only [hrec] at h
          injection h with h
          subst h
          intro l hl
          rcases List.mem_append.mp hl with hmem | hmem
          · have ht := linesForRequest_timestamp d.tags (toString d.id)
              (quantize d.scan_interval (clock i)) req.start resp _ ls hlf l hmem
            rw [ht, quantize]
            exact dvd_mul_left _ _
          · exact ih (i + 1) more hrec l hmem
        · simp only [hrec] at h
          exact ReadResult.noConfusion h
        · simp only [hrec] at h
          exact ReadResult.noConfusion h

/-- Claim C2, counterexample. `Device::read` captures and quantizes the
wall clock once per *read request*, after each Modbus response — not
once at the start of the call.  On a real two-request device
(`Registers::new` produces requests `[1,2)` and `[8,9)`), with the
clock advancing from 5 ns to 15 ns between the requests and a 10 ns
scan interval, one successful call emits two lines with *different*
timestamps 0 and 10, refuting "every line emitted by that one call
carries this same quantized timestamp". -/
theorem timestamp_not_constant_within_read :
    Registers.new exMap = some exRegisters ∧
      exDevice.read exMb exClock = .ok
        [⟨"a", [("modbus_id", "1")], (.ofInt 7, one_f64_bits), 0⟩,
          ⟨"b", [("modbus_id", "1")], (.ofInt 7, one_f64_bits), 10⟩] ∧
      (0 : Nat) ≠ 10 :=
  ⟨rfl, rfl, by decide⟩

/-- Claim C2, amended. For every successful `Device::read` call, the
timestamp of every emitted line is a per-request wall-clock value
quantized to the device's scan interval; in particular every line's
timestamp is divisible by the scan interval in nanoseconds.  (Lines of
different requests of the same call may carry different timestamps, as
the counterexample shows.) -/
theorem read_timestamp_divisible (d : Device) (mb : Nat → Nat → Option (List Nat))
    (clock : Nat → Nat) (lines : List LineRec) (_hpos : 0 < d.scan_interval)
    (hread : d.read mb clock = .ok lines) :
    ∀ l ∈ lines, d.scan_interval ∣ l.timestamp :=
  readLoop_timestamp_dvd d mb clock d.input_registers.requests 0 lines hread

/-- Witness for the amended C2 at the concrete two-request device. -/
theorem read_timestamp_divisible_witness :
    exDevice.scan_interval ∣
      (LineRec.mk "b" [("modbus_id", "1")] (.ofInt 7, one_f64_bits) 10).timestamp :=
  read_timestamp_divisible exDevice exMb exClock
    [⟨"a", [("modbus_id", "1")], (.ofInt 7, one_f64_bits), 0⟩,
      ⟨"b", [("modbus_id", "1")], (.ofInt 7, one_f64_bits), 10⟩]
    (by decide) rfl
    (LineRec.mk "b" [("modbus_id", "1")] (.ofInt 7, one_f64_bits) 10) (by simp)

lemma connection_task_no_panic (trace : Nat → List SensorOutcome)
    (hnp : ∀ k, SensorOutcome.errPanic ∉ trace k) :
    ∀ fuel k, connection_task_run trace fuel k ≠ .panicked := by
  intro fuel
  induction fuel with
  | zero =>
    intro k
    simp [connection_task_run]
  | succ n ih =>
    intro k
    simp only [connection_task_run, connection_task_iter]
    rw [if_neg (hnp k)]
    by_cases hd : SensorOutcome.okData ∈ trace k
    · rw [if_pos hd]
      exact ih (k + 1)
    · rw [if_neg hd]
      simp

/-- Claim C3, counterexample.  The process does *not* terminate when
accumulated communication failures cross the spec's threshold: for one
sensor the threshold `2 * device_count * ratio` is `2`, yet with every
pass failing recoverably (total outage) the embedded `main` loop is
still running after 100 reconnect cycles — `connection_task` returns
an error each pass and `main` sleeps 10 s and reconnects forever
(`// Retry to connect forever`); no failure counter exists. -/
theorem threshold_never_terminates :
    main_run (fun _ => some fun _ => [SensorOutcome.errWarn]) 100 0 =
        .running ∧
      2 * 1 * 1 < 100 :=
  ⟨rfl, by decide⟩

/-- Claim C3, amended.  As long as no pass hits a fatal Modbus error
(`Exception`/`InvalidData`/`InvalidFunction`, which panic), the
process never terminates, no matter how many failures accumulate: a
pass in which every sensor fails makes `connection_task` return an
error and `main` reconnects after a 10-second delay and retries
indefinitely. -/
theorem main_retries_forever (attempts : Nat → Option (Nat → List SensorOutcome))
    (hnp : ∀ j tr, attempts j = some tr → ∀ k, SensorOutcome.errPanic ∉ tr k) :
    ∀ fuel j, main_run attempts fuel j = .running := by
  intro fuel
  induction fuel with
  | zero =>
    intro j
    rfl
  | succ n ih =>
    intro j
    simp only [main_run]
    rcases ha : attempts j with _ | tr
    · simp only [ha]
      exact ih (j + 1)
    · simp only [ha]
      rcases hr : connection_task_run tr (n + 1) 0 with _ | _ | _
      · simp only [hr]
      · exact absurd hr (connection_task_no_panic tr (hnp j tr ha) (n + 1) 0)
      · simp only [hr]
        exact ih (j + 1)

/-- Witness for the amended C3: five reconnect cycles of total outage
leave the process running. -/
theorem main_retries_forever_witness :
    main_run (fun _ => some fun _ => [SensorOutcome.errWarn]) 5 0 = .running :=
  main_retries_forever (fun _ => some fun _ => [SensorOutcome.errWarn])
    (by
      intro j tr h k
      injection h with h2
      subst h2
      simp)
    5 0

end DataCollector
